import Mathlib

/-!
Verification of the PPM prototype Leader aggregator (leader.rs, error.rs,
upload.rs, collect.rs) against its natural-language specification.

The embedding below translates the Leader state machine from the source:
pure Rust functions become Lean functions, the mutable `Leader` struct
becomes explicit state passing, and fallible steps return `Option` or
`Except`.  External collaborators that the source treats as opaque
libraries (HPKE, the prio VDAF, the HTTP client and the Helper process)
are modelled as oracle parameters: the handlers are quantified over every
possible behavior of those collaborators.  Opaque payloads (ciphertexts,
VDAF states and messages, aggregate shares, problem documents) are
modelled as natural numbers; none of the verified properties depends on
their structure.  Rust panics (out-of-bounds indexing, `Vec::split_off`
past the end) are modelled by returning `none` from the handler.
-/

namespace Ppm

/-- Timestamp of a report: seconds since the epoch plus a nonce
(struct Timestamp in the source crate root; the pair uniquely identifies
a report within a task). -/
structure Timestamp where
  time : Nat
  nonce : Nat
deriving DecidableEq, Repr

/-- Modelled from the spec (section 3): ordering on timestamps is `time`
ascending with `nonce` ascending as a tiebreak (the derived lexicographic
Ord of the source struct). Boolean less-or-equal. -/
def tsLeb (a b : Timestamp) : Bool :=
  a.time < b.time || (a.time = b.time && a.nonce ≤ b.nonce)

/-- Boolean strict lexicographic order on timestamps. -/
def tsLtb (a b : Timestamp) : Bool :=
  a.time < b.time || (a.time = b.time && a.nonce < b.nonce)

/-- Modelled from the spec (section 3): associated data for input-share
HPKE is the big-endian encoding of `time` followed by the big-endian
encoding of `nonce` (Report::associated_data in upload.rs, with the u64
values reduced modulo 2^64). -/
def tsAssociatedData (t : Timestamp) : List Nat :=
  ((List.range 8).map fun i => t.time % 2 ^ 64 / 2 ^ (8 * (7 - i)) % 256) ++
    ((List.range 8).map fun i => t.nonce % 2 ^ 64 / 2 ^ (8 * (7 - i)) % 256)

/-- Interval of time: `[start, start + duration)` (struct Interval in the
source crate root). -/
structure Interval where
  start : Nat
  duration : Nat
deriving DecidableEq, Repr

/-- Report extension (upload.rs struct ReportExtension): a 16-bit type tag
and opaque bytes. -/
structure ReportExtension where
  extension_type : Nat
  extension_data : List Nat
deriving DecidableEq, Repr

/-- Encrypted input share (upload.rs struct EncryptedInputShare): HPKE
config id, encapsulated context and payload bytes. -/
structure EncryptedInputShare where
  config_id : Nat
  encapsulated_context : List Nat
  payload : List Nat
deriving DecidableEq, Repr

/-- A client report (upload.rs struct Report, with the timestamp fields
grouped as in the Timestamp struct used by leader.rs).  The
`encrypted_input_shares` field is a plain list: the serde-derived JSON
deserializer of the source accepts any length. -/
structure Report where
  task_id : Nat
  timestamp : Timestamp
  extensions : List ReportExtension
  encrypted_input_shares : List EncryptedInputShare
deriving DecidableEq, Repr

/-- Per-task configuration (struct Parameters in parameters.rs, which is
not part of the reviewed sources; fields are the ones leader.rs reads). -/
structure Parameters where
  task_id : Nat
  min_batch_duration : Nat
  min_batch_size : Nat
  max_batch_lifetime : Nat
  collector_config_id : Nat
deriving DecidableEq, Repr

/-- Modelled from the spec (section 4.1, parameters.rs is missing from the
sources): `validate_batch_interval` holds iff start and duration are both
positive multiples of `min_batch_duration` and the duration is at least
`min_batch_duration`. -/
def validateBatchInterval (p : Parameters) (i : Interval) : Bool :=
  decide (0 < i.start) && (i.start % p.min_batch_duration == 0) &&
    decide (0 < i.duration) && (i.duration % p.min_batch_duration == 0) &&
    decide (p.min_batch_duration ≤ i.duration)

/-- Modelled from the spec (section 4.2, the Time::interval_start helper is
missing from the sources): `bucket(time) = time - time mod d`. -/
def intervalStart (d : Nat) (t : Nat) : Nat := t - t % d

/-- Modelled from the spec (section 4.2, Interval::min_intervals_in_interval
is missing from the sources): the number of buckets covered by an interval
is `duration / min_batch_duration`. -/
def minIntervalsInInterval (d : Nat) (i : Interval) : Nat := i.duration / d

/-- Errors of the Leader (leader.rs enum Error).  Opaque payloads are
modelled as naturals; string payloads are dropped. -/
inductive LeaderError where
  | jsonParse
  | encryption
  | unrecognizedTask (id : Nat)
  | unknownHpkeConfig (id : Nat)
  | vdaf
  | httpClient
  | helperHttpRequest (status : Nat)
  | badParameters
  | aggregateProtocol
  | prioField
  | helperError (document : Nat)
  | invalidBatchInterval (i : Interval)
  | insufficientBatchSize (total : Nat)
  | privacyBudgetExceeded
  | lengthMismatch
deriving DecidableEq, Repr

/-- Problem document types (error.rs enum ProblemDocumentType).  The
`helperError` constructor is referenced by the leader.rs impl of
IntoHttpApiProblem although the error.rs snapshot of the enum predates
it; it is included so that the cited impl can be embedded. -/
inductive ProblemDocumentType where
  | unrecognizedMessage
  | unrecognizedTask
  | outdatedConfig
  | invalidProof
  | invalidBatchInterval
  | insufficientBatchSize
  | privacyBudgetExceeded
  | helperError
  | unknownError
deriving DecidableEq, Repr

/-- Mapping from Leader errors to problem document types
(impl IntoHttpApiProblem for Error in leader.rs, lines 79 to 105). -/
def problemDocumentType : LeaderError → Option ProblemDocumentType
  | .jsonParse => some .unrecognizedMessage
  | .encryption => some .unrecognizedMessage
  | .unrecognizedTask _ => some .unrecognizedTask
  | .unknownHpkeConfig _ => some .outdatedConfig
  | .invalidBatchInterval _ => some .invalidBatchInterval
  | .insufficientBatchSize _ => some .insufficientBatchSize
  | .privacyBudgetExceeded => some .privacyBudgetExceeded
  | .helperError _ => some .helperError
  | .helperHttpRequest _ => some .helperError
  | _ => none

/-- HTTP status of the problem document built for an error
(IntoHttpApiProblem::problem_document in error.rs, lines 41 to 56):
BAD_REQUEST = 400 when the error has a problem document type,
INTERNAL_SERVER_ERROR = 500 otherwise. -/
def problemDocumentStatus (e : LeaderError) : Nat :=
  match problemDocumentType e with
  | some _ => 400
  | none => 500

/-- An input stored by the leader awaiting aggregation (leader.rs struct
StoredInputShare).  VDAF prepare state and message are opaque. -/
structure StoredInputShare where
  timestamp : Timestamp
  leader_state : Nat
  leader_verifier_message : Nat
  encrypted_helper_share : EncryptedInputShare
  extensions : List ReportExtension
deriving DecidableEq, Repr

/-- An accumulator for one batch window (aggregate.rs struct Accumulator,
as read and written by leader.rs): opaque aggregate share, count of
contributions, privacy budget. -/
structure Accumulator where
  accumulated : Nat
  contributions : Nat
  privacy_budget : Nat
deriving DecidableEq, Repr

/-- The accumulator store: HashMap from batch window start (seconds) to
Accumulator, modelled as an association list. -/
abbrev AccMap : Type := List (Nat × Accumulator)

/-- Lookup in the accumulator store (HashMap::get / get_mut). -/
def accGet : AccMap → Nat → Option Accumulator
  | [], _ => none
  | (k', a) :: rest, k => if k' = k then some a else accGet rest k

/-- In-place update of a present key (mutation through HashMap::get_mut). -/
def accUpdate : AccMap → Nat → Accumulator → AccMap
  | [], _, _ => []
  | (k', a) :: rest, k, b =>
    if k' = k then (k', b) :: accUpdate rest k b else (k', a) :: accUpdate rest k b

/-- Insertion of an absent key (HashMap::insert on a fresh key). -/
def accInsert (m : AccMap) (k : Nat) (a : Accumulator) : AccMap := m ++ [(k, a)]

/-- Mutable state of the Leader (leader.rs struct Leader).  The vdaf and
http_client fields are external collaborators and live outside the state:
their behavior is an oracle parameter of each handler. -/
structure Leader where
  parameters : Parameters
  hpke_config_id : Nat
  unaggregated_inputs : List StoredInputShare
  accumulators : AccMap
  helper_state : List Nat
deriving DecidableEq, Repr

/-- Leader::new: empty queue, empty accumulator store, empty helper state. -/
def leaderNew (p : Parameters) (cfg : Nat) : Leader :=
  { parameters := p
    hpke_config_id := cfg
    unaggregated_inputs := []
    accumulators := []
    helper_state := [] }

/-- One sub-request of a VerifyStartRequest (aggregate.rs struct
VerifyStartSubRequest as built by leader.rs lines 242 to 253). -/
structure VerifyStartSubRequest where
  timestamp : Timestamp
  extensions : List ReportExtension
  verify_message : List Nat
  helper_share : EncryptedInputShare
deriving DecidableEq, Repr

/-- The aggregate request sent to the Helper (aggregate.rs struct
VerifyStartRequest as built by leader.rs lines 255 to 260). -/
structure VerifyStartRequest where
  task_id : Nat
  helper_state : List Nat
  sub_requests : List VerifyStartSubRequest
deriving DecidableEq, Repr

/-- One sub-response of the Helper (aggregate.rs struct VerifySubResponse
as read by leader.rs). -/
structure SubResponse where
  timestamp : Timestamp
  verification_message : List Nat
deriving DecidableEq, Repr

/-- The decoded aggregate response of the Helper (aggregate.rs struct
VerifyResponse). -/
structure VerifyResponse where
  helper_state : List Nat
  sub_responses : List SubResponse
deriving DecidableEq, Repr

/-- JSON encoding of an opaque VDAF message (serde_json::to_vec in
leader.rs line 249), modelled as an injective encoding into bytes. -/
def encodeMsg (msg : Nat) : List Nat := [msg]

/-- Behavior of the Helper on one POST to /aggregate, as observed by the
Leader through the HTTP client: a non-success status (with or without a
parseable problem document), a success whose body fails to decode as a
VerifyResponse, or a decoded VerifyResponse. -/
inductive HelperAggResponse where
  | failure (status : Nat) (document : Option Nat)
  | badBody
  | ok (resp : VerifyResponse)

/-- Behavior of the prio VDAF library (treated by the spec as an abstract
deterministic state machine): the four prepare steps plus aggregation and
accumulation, each allowed to fail.  States, messages, output shares and
aggregate shares are opaque naturals. -/
structure VdafModel where
  decodeMsg : List Nat → Option Nat
  preproc : Nat → Nat → Option Nat
  finish : Nat → Nat → Option Nat
  accumulate : Nat → Nat → Option Nat
  aggregateOne : Nat → Option Nat

/-- The sub-requests the Leader builds from its pending queue
(leader.rs lines 242 to 253). -/
def aggregateSubRequests (s : Leader) : List VerifyStartSubRequest :=
  s.unaggregated_inputs.map fun stored =>
    { timestamp := stored.timestamp
      extensions := stored.extensions
      verify_message := encodeMsg stored.leader_verifier_message
      helper_share := stored.encrypted_helper_share }

/-- The full aggregate request (leader.rs lines 255 to 260). -/
def aggregateRequest (s : Leader) : VerifyStartRequest :=
  { task_id := s.parameters.task_id
    helper_state := s.helper_state
    sub_requests := aggregateSubRequests s }

/-- The reconciliation loop of send_aggregate_request (leader.rs lines 294
to 360): walk the zipped pairs of drained inputs and helper sub-responses
in order; abort with aggregateProtocol on the first timestamp mismatch;
decode the helper message and run preprocess (failures are fatal); a
prepare_finish failure is an invalid proof and skips the pair; fold each
surviving output share into the accumulator for its batch window.
Returns the store as mutated so far together with the fatal error, if
any. -/
def foldPairs (v : VdafModel) (mbd : Nat) :
    List (StoredInputShare × SubResponse) → AccMap → AccMap × Option LeaderError
  | [], m => (m, none)
  | (li, hr) :: rest, m =>
    if li.timestamp ≠ hr.timestamp then (m, some .aggregateProtocol)
    else
      match v.decodeMsg hr.verification_message with
      | none => (m, some .jsonParse)
      | some hmsg =>
        match v.preproc hmsg li.leader_verifier_message with
        | none => (m, some .vdaf)
        | some combined =>
          match v.finish li.leader_state combined with
          | none => foldPairs v mbd rest m
          | some out =>
            let bucket := intervalStart mbd li.timestamp.time
            match accGet m bucket with
            | some acc =>
              match v.accumulate acc.accumulated out with
              | none => (m, some .vdaf)
              | some sh =>
                foldPairs v mbd rest
                  (accUpdate m bucket
                    { acc with accumulated := sh, contributions := acc.contributions + 1 })
            | none =>
              match v.aggregateOne out with
              | none => (m, some .vdaf)
              | some sh =>
                foldPairs v mbd rest
                  (accInsert m bucket
                    { accumulated := sh, contributions := 1, privacy_budget := 0 })

/-- Leader::send_aggregate_request (leader.rs lines 241 to 367).  On a
non-success HTTP status the pending queue is untouched (the error return
precedes the mem::take of unaggregated_inputs); after a success status
the queue is drained unconditionally, then the body is decoded, the
lengths are compared, and the pairs are reconciled; helper_state is
updated only when the whole loop completes. -/
def sendAggregateRequest (v : VdafModel) (hresp : HelperAggResponse) (s : Leader) :
    Except LeaderError Unit × Leader :=
  match hresp with
  | .failure _status (some document) => (.error (.helperError document), s)
  | .failure status none => (.error (.helperHttpRequest status), s)
  | .badBody => (.error .jsonParse, { s with unaggregated_inputs := [] })
  | .ok resp =>
    let leader_inputs := s.unaggregated_inputs
    let s1 := { s with unaggregated_inputs := [] }
    if leader_inputs.length ≠ resp.sub_responses.length then
      (.error .aggregateProtocol, s1)
    else
      match foldPairs v s.parameters.min_batch_duration
          (leader_inputs.zip resp.sub_responses) s.accumulators with
      | (m, some e) => (.error e, { s1 with accumulators := m })
      | (m, none) =>
        (.ok (), { s1 with accumulators := m, helper_state := resp.helper_state })

/-- Behavior of the HPKE library and of the JSON decoding of the opened
plaintext, as used by handle_upload: recipient construction plus
decrypt_input_share (either failure is an encryption error), the serde
decode of the plaintext, and the two fallible VDAF preparation steps. -/
structure UploadEnv where
  decryptInputShare : EncryptedInputShare → List Nat → Option (List Nat)
  decodeInputShare : List Nat → Option Nat
  prepInit : List Nat → Nat → Option Nat
  prepStart : Nat → Option (Nat × Nat)

/-- The validation, decryption and preparation pipeline of handle_upload
(leader.rs lines 172 to 215), up to and including the construction of the
StoredInputShare.  Returns `none` when the source would panic on an
out-of-bounds index into encrypted_input_shares (index 0 = Leader before
the config check, index 1 = Helper when building the entry). -/
def uploadPrepares (env : UploadEnv) (r : Report) (s : Leader) :
    Option (Except LeaderError StoredInputShare) :=
  if r.task_id ≠ s.parameters.task_id then
    some (.error (.unrecognizedTask r.task_id))
  else
    match r.encrypted_input_shares.get? 0 with
    | none => none
    | some leader_share =>
      if leader_share.config_id ≠ s.hpke_config_id then
        some (.error (.unknownHpkeConfig leader_share.config_id))
      else
        match env.decryptInputShare leader_share (tsAssociatedData r.timestamp) with
        | none => some (.error .encryption)
        | some plaintext =>
          match env.decodeInputShare plaintext with
          | none => some (.error .jsonParse)
          | some input_share =>
            match env.prepInit (tsAssociatedData r.timestamp) input_share with
            | none => some (.error .vdaf)
            | some state0 =>
              match env.prepStart state0 with
              | none => some (.error .vdaf)
              | some (state1, msg) =>
                match r.encrypted_input_shares.get? 1 with
                | none => none
                | some helper_share =>
                  some (.ok
                    { timestamp := r.timestamp
                      leader_state := state1
                      leader_verifier_message := msg
                      encrypted_helper_share := helper_share
                      extensions := r.extensions })

/-- Insertion of an entry into a list at its sorted position by
timestamp. -/
def insertSorted (e : StoredInputShare) : List StoredInputShare → List StoredInputShare
  | [] => [e]
  | a :: rest =>
    if tsLeb e.timestamp a.timestamp then e :: a :: rest else a :: insertSorted e rest

/-- The queue after pushing a new entry and re-sorting
(leader.rs lines 209 to 218: Vec::push then sort_unstable, where the
derived Ord of StoredInputShare compares timestamps lexicographically;
sort_unstable is a comparison sort, modelled as insertion sort). -/
def sortQueue : List StoredInputShare → List StoredInputShare
  | [] => []
  | a :: rest => insertSorted a (sortQueue rest)

/-- Leader::handle_upload (leader.rs lines 172 to 238).  After a
successful pipeline the entry is pushed and the queue sorted; once the
queue holds at least 10 entries an aggregate round runs and any error it
produces is logged and swallowed.  The returned trace lists the aggregate
requests sent to the Helper during the call; `none` models a panic. -/
def handleUpload (env : UploadEnv) (v : VdafModel) (hresp : HelperAggResponse)
    (r : Report) (s : Leader) :
    Option (Except LeaderError Unit × Leader × List VerifyStartRequest) :=
  match uploadPrepares env r s with
  | none => none
  | some (.error e) => some (.error e, s, [])
  | some (.ok entry) =>
    let s1 := { s with unaggregated_inputs := sortQueue (s.unaggregated_inputs ++ [entry]) }
    if 10 ≤ s1.unaggregated_inputs.length then
      let req := aggregateRequest s1
      let out := sendAggregateRequest v hresp s1
      some (.ok (), out.2, [req])
    else
      some (.ok (), s1, [])

/-- The per-bucket charge of handle_collect (leader.rs lines 423 to 428):
fail when the privacy budget already equals max_batch_lifetime, otherwise
increment it. -/
def chargeBucket (maxLifetime : Nat) (acc : Accumulator) : Option Accumulator :=
  if acc.privacy_budget = maxLifetime then none
  else some { acc with privacy_budget := acc.privacy_budget + 1 }

/-- The budget-charging loop of handle_collect (leader.rs lines 416 to
440): walk the bucket keys of the interval in order; skip absent buckets;
for a present bucket abort the collect when the budget is exhausted,
otherwise snapshot the aggregate share, charge the budget and add the
contributions to the running total.  Returns the store as mutated so far
together with, on completion, the snapshots and the total. -/
def chargeLoop (maxLifetime : Nat) :
    List Nat → AccMap → List Nat → Nat → AccMap × Option (List Nat × Nat)
  | [], m, shares, total => (m, some (shares, total))
  | k :: rest, m, shares, total =>
    match accGet m k with
    | none => chargeLoop maxLifetime rest m shares total
    | some acc =>
      match chargeBucket maxLifetime acc with
      | none => (m, none)
      | some acc' =>
        chargeLoop maxLifetime rest (accUpdate m k acc')
          (shares ++ [acc.accumulated]) (total + acc.contributions)

/-- The bucket keys covered by a collect request (leader.rs lines 408 to
420): `first + i * min_batch_duration` for `i` below the number of
minimum intervals in the batch interval. -/
def collectKeys (p : Parameters) (i : Interval) : List Nat :=
  (List.range (minIntervalsInInterval p.min_batch_duration i)).map
    fun j => intervalStart p.min_batch_duration i.start + j * p.min_batch_duration

/-- The output share request forwarded to the Helper (leader.rs lines 385
to 389). -/
structure OutputShareRequest where
  task_id : Nat
  batch_interval : Interval
  helper_state : List Nat
deriving DecidableEq, Repr

/-- Collect request (collect.rs struct CollectRequest; the optional
aggregation parameter is unused by the Leader). -/
structure CollectRequest where
  task_id : Nat
  batch_interval : Interval
deriving DecidableEq, Repr

/-- Encrypted output share (collect.rs struct EncryptedOutputShare). -/
structure EncryptedOutputShare where
  collector_hpke_config_id : Nat
  encapsulated_context : List Nat
  payload : List Nat
deriving DecidableEq, Repr

/-- Collect response (collect.rs struct CollectResponse): the leader and
helper encrypted output shares, in role order. -/
structure CollectResponse where
  encrypted_output_shares : List EncryptedOutputShare
deriving DecidableEq, Repr

/-- Behavior of the Helper on one POST to /output_share. -/
inductive HelperCollectResponse where
  | failure (status : Nat) (document : Option Nat)
  | badBody
  | ok (share : EncryptedOutputShare)

/-- External collaborators of handle_collect: the Helper response, the
prio merge of two aggregate shares, and the HPKE sealing of the encoded
output share to the Collector (covering sender construction). -/
structure CollectEnv where
  helperResp : HelperCollectResponse
  mergeShare : Nat → Nat → Option Nat
  sealShare : List Nat → Option (List Nat × List Nat)

/-- JSON encoding of the OutputShare struct (serde_json::to_vec in
leader.rs line 457), modelled as an injective encoding. -/
def encodeOutputShare (sum total : Nat) : List Nat := [sum, total]

/-- The merge fold of handle_collect (leader.rs lines 447 to 450): merge
every remaining share into the first one, failures are fatal. -/
def mergeAll (env : CollectEnv) : Nat → List Nat → Except LeaderError Nat
  | a, [] => .ok a
  | a, b :: rest =>
    match env.mergeShare a b with
    | none => .error .vdaf
    | some c => mergeAll env c rest

/-- Leader::handle_collect (leader.rs lines 370 to 476).  Validation of
the batch interval happens before any Helper contact or state change; the
Helper is then asked for its output share; present buckets are charged in
key order (aborting on an exhausted budget, keeping earlier charges);
an insufficient total aborts after the charges; the snapshots are merged
(Vec::split_off(1) panics when no snapshot was collected, modelled by
`none`), encoded and sealed.  The returned trace lists the output share
requests sent to the Helper. -/
def handleCollect (env : CollectEnv) (req : CollectRequest) (s : Leader) :
    Option (Except LeaderError CollectResponse × Leader × List OutputShareRequest) :=
  if validateBatchInterval s.parameters req.batch_interval = false then
    some (.error (.invalidBatchInterval req.batch_interval), s, [])
  else
    let osr : OutputShareRequest :=
      { task_id := req.task_id
        batch_interval := req.batch_interval
        helper_state := s.helper_state }
    match env.helperResp with
    | .failure _status (some document) => some (.error (.helperError document), s, [osr])
    | .failure status none => some (.error (.helperHttpRequest status), s, [osr])
    | .badBody => some (.error .jsonParse, s, [osr])
    | .ok helper_share =>
      match chargeLoop s.parameters.max_batch_lifetime
          (collectKeys s.parameters req.batch_interval) s.accumulators [] 0 with
      | (m, none) =>
        some (.error .privacyBudgetExceeded, { s with accumulators := m }, [osr])
      | (m, some (shares, total)) =>
        let s1 := { s with accumulators := m }
        if total < s.parameters.min_batch_size then
          some (.error (.insufficientBatchSize total), s1, [osr])
        else
          match shares with
          | [] => none
          | first :: rest =>
            match mergeAll env first rest with
            | .error e => some (.error e, s1, [osr])
            | .ok merged =>
              match env.sealShare (encodeOutputShare merged total) with
              | none => some (.error .encryption, s1, [osr])
              | some (payload, encapped) =>
                some (.ok
                  { encrypted_output_shares :=
                      [{ collector_hpke_config_id := s.parameters.collector_config_id
                         encapsulated_context := encapped
                         payload := payload },
                       helper_share] }, s1, [osr])

/-- States of the Leader reachable from a fresh instance by any sequence
of upload and collect requests, under arbitrary behavior of the external
collaborators (a step that panics kills the process and reaches no new
state). -/
inductive Reachable : Leader → Prop
  | init (p : Parameters) (cfg : Nat) : Reachable (leaderNew p cfg)
  | upload {s s' : Leader} (env : UploadEnv) (v : VdafModel) (hresp : HelperAggResponse)
      (r : Report) (res : Except LeaderError Unit) (tr : List VerifyStartRequest) :
      Reachable s → handleUpload env v hresp r s = some (res, s', tr) → Reachable s'
  | collect {s s' : Leader} (env : CollectEnv) (req : CollectRequest)
      (res : Except LeaderError CollectResponse) (tr : List OutputShareRequest) :
      Reachable s → handleCollect env req s = some (res, s', tr) → Reachable s'

/-- Boolean test that a list of timestamps is strictly increasing in
`(time, nonce)`. -/
def strictlyIncreasingTs : List Timestamp → Bool
  | [] => true
  | [_] => true
  | a :: b :: rest => tsLtb a b && strictlyIncreasingTs (b :: rest)

/-! Concrete fixtures used by counterexamples and witnesses: a small task
configuration, a VDAF model and HPKE environment in which every operation
succeeds, and reports that pass validation. -/

/-- Task configuration with `min_batch_duration = 100`,
`min_batch_size = 2`, `max_batch_lifetime = 1`. -/
def p0 : Parameters :=
  { task_id := 0
    min_batch_duration := 100
    min_batch_size := 2
    max_batch_lifetime := 1
    collector_config_id := 0 }

/-- VDAF model in which every step succeeds. -/
def v0 : VdafModel :=
  { decodeMsg := fun bs => some (bs.headD 0)
    preproc := fun a b => some (a + b)
    finish := fun _ c => some c
    accumulate := fun a b => some (a + b)
    aggregateOne := fun a => some a }

/-- Upload environment in which decryption, decoding and preparation all
succeed. -/
def env0 : UploadEnv :=
  { decryptInputShare := fun _ _ => some [0]
    decodeInputShare := fun _ => some 0
    prepInit := fun _ x => some x
    prepStart := fun st => some (st, st) }

/-- Collect environment in which the Helper answers with an output share
and merging and sealing succeed. -/
def cenvOk : CollectEnv :=
  { helperResp := .ok { collector_hpke_config_id := 0, encapsulated_context := [], payload := [] }
    mergeShare := fun a b => some (a + b)
    sealShare := fun bs => some (bs, []) }

/-- A well-formed report for task 0 with the given time and nonce and two
encrypted input shares carrying config id 0. -/
def mkReport (t n : Nat) : Report :=
  { task_id := 0
    timestamp := { time := t, nonce := n }
    extensions := []
    encrypted_input_shares :=
      [{ config_id := 0, encapsulated_context := [], payload := [] },
       { config_id := 0, encapsulated_context := [], payload := [] }] }

/-- State reached after one upload under the all-success environment (the
Helper answering any triggered round with HTTP 500). -/
def stepUpload (r : Report) (s : Leader) : Leader :=
  match handleUpload env0 v0 (.failure 500 none) r s with
  | some (_, s1, _) => s1
  | none => s

/-- Trace of aggregate requests sent during one upload under the
all-success environment. -/
def uploadTrace (r : Report) (s : Leader) : List VerifyStartRequest :=
  match handleUpload env0 v0 (.failure 500 none) r s with
  | some (_, _, tr) => tr
  | none => []

/-- State holding nine pending entries, reached by nine uploads with
distinct times. -/
def s9 : Leader :=
  ((List.range 9).map fun i => mkReport (i + 1) 1).foldl
    (fun s r => stepUpload r s) (leaderNew p0 0)

/-! Claim C1: behavior of the pending queue when the Helper fails the
/aggregate request. -/

/-- Claim C1 counterexample: with a single queued entry and the Helper
answering HTTP 500 without a problem document, send_aggregate_request
returns the helperHttpRequest error but the pending queue
(unaggregated_inputs) is NOT empty: the error return precedes the drain,
so the claim that the queue is empty after the error is false. -/
theorem c1_counterexample :
    (sendAggregateRequest v0 (.failure 500 none)
      { leaderNew p0 0 with
        unaggregated_inputs :=
          [{ timestamp := { time := 1, nonce := 1 }
             leader_state := 0
             leader_verifier_message := 0
             encrypted_helper_share := { config_id := 0, encapsulated_context := [], payload := [] }
             extensions := [] }] }).1 = .error (.helperHttpRequest 500) ∧
    (sendAggregateRequest v0 (.failure 500 none)
      { leaderNew p0 0 with
        unaggregated_inputs :=
          [{ timestamp := { time := 1, nonce := 1 }
             leader_state := 0
             leader_verifier_message := 0
             encrypted_helper_share := { config_id := 0, encapsulated_context := [], payload := [] }
             extensions := [] }] }).2.unaggregated_inputs ≠ [] := by
  exact ⟨rfl, by decide⟩

/-- Claim C1 (amended): when the Helper returns a non-success HTTP status
to the /aggregate request, send_aggregate_request surfaces helperError
(when a problem document is present) or helperHttpRequest and leaves the
Leader state, in particular the PendingQueue, exactly unchanged: the
entries are not drained (draining happens only after a success status). -/
theorem c1_helper_failure_keeps_queue (v : VdafModel) (status : Nat)
    (doc : Option Nat) (s : Leader) :
    (sendAggregateRequest v (.failure status doc) s).2 = s ∧
    (sendAggregateRequest v (.failure status doc) s).1 =
      .error (match doc with
              | some d => .helperError d
              | none => .helperHttpRequest status) := by
  cases doc <;> exact ⟨rfl, rfl⟩

/-! Claim C6: HTTP status of the problem document for Helper failures. -/

/-- Claim C6 counterexample: the problem document built from
Error::HelperError does not carry HTTP status 500: problem_document gives
status BAD_REQUEST = 400 to every error with a problem document type, and
the leader.rs impl classifies HelperError with a type. -/
theorem c6_counterexample : problemDocumentStatus (.helperError 0) ≠ 500 := by
  decide

/-- Claim C6 (amended): the problem documents produced from
Error::HelperError and Error::HelperHttpRequest carry HTTP status 400
(BAD_REQUEST), not 500: only errors without a problem document type are
given INTERNAL_SERVER_ERROR. -/
theorem c6_helper_error_status (d status : Nat) :
    problemDocumentStatus (.helperError d) = 400 ∧
    problemDocumentStatus (.helperHttpRequest status) = 400 :=
  ⟨rfl, rfl⟩

/-! Claim C8: an invalid batch interval is rejected before any Helper
contact or state change. -/

/-- Claim C8: for every collect request whose batch interval fails
validate_batch_interval, handle_collect returns the invalidBatchInterval
error, leaves the Leader state untouched, and sends no request to the
Helper. -/
theorem c8_invalid_interval_rejected_first (env : CollectEnv)
    (req : CollectRequest) (s : Leader)
    (h : validateBatchInterval s.parameters req.batch_interval = false) :
    handleCollect env req s =
      some (.error (.invalidBatchInterval req.batch_interval), s, []) := by
  unfold handleCollect
  rw [h]
  rfl

/-- Claim C8 witness: the unaligned interval of scenario S6
(start 1050, duration 100, min_batch_duration 100) fails validation and
is rejected with no Helper request and no state change. -/
theorem c8_witness :
    validateBatchInterval p0 { start := 1050, duration := 100 } = false ∧
    handleCollect cenvOk { task_id := 0, batch_interval := { start := 1050, duration := 100 } }
        (leaderNew p0 0) =
      some (.error (.invalidBatchInterval { start := 1050, duration := 100 }), leaderNew p0 0, []) :=
  ⟨by decide, c8_invalid_interval_rejected_first cenvOk _ (leaderNew p0 0) (by decide)⟩

/-! Claim C9: indexing of encrypted_input_shares in handle_upload. -/

/-- Helper lemma: the upload pipeline never hits an out-of-bounds index
when the report carries at least two encrypted input shares. -/
theorem uploadPrepares_ne_none (env : UploadEnv) (r : Report) (s : Leader)
    (h : 2 ≤ r.encrypted_input_shares.length) :
    uploadPrepares env r s ≠ none := by
  obtain ⟨a, b, l, hl⟩ : ∃ a b l, r.encrypted_input_shares = a :: b :: l := by
    cases hxs : r.encrypted_input_shares with
    | nil => rw [hxs] at h; simp at h
    | cons a t =>
      cases t with
      | nil => rw [hxs] at h; simp at h
      | cons b l => exact ⟨a, b, l, rfl⟩
  unfold uploadPrepares
  rw [hl]
  simp only [List.get?_cons_zero, List.get?_cons_succ]
  split
  · simp
  · split
    · simp
    · split
      · simp
      · split
        · simp
        · split
          · simp
          · split
            · simp
            · simp

/-- A report for task 0 whose encrypted_input_shares list is empty: fewer
than two entries, which the serde-derived JSON deserializer of Report
accepts because the field is a plain Vec. -/
def shortReport : Report :=
  { task_id := 0
    timestamp := { time := 1, nonce := 1 }
    extensions := []
    encrypted_input_shares := [] }

/-- Claim C9: handle_upload indexes encrypted_input_shares at the Leader
position (0) and Helper position (1) without a length check: for every
report with at least two entries both accesses are in bounds (the handler
never panics), while for the concrete report with an empty list (which
deserialization accepts) the access is out of bounds and the handler
panics (modelled as `none`) instead of returning a problem-classified
error. -/
theorem c9_upload_share_indexing :
    (∀ (env : UploadEnv) (v : VdafModel) (hresp : HelperAggResponse)
        (r : Report) (s : Leader),
      2 ≤ r.encrypted_input_shares.length → handleUpload env v hresp r s ≠ none) ∧
    handleUpload env0 v0 (.failure 500 none) shortReport (leaderNew p0 0) = none := by
  constructor
  · intro env v hresp r s h
    cases hp : uploadPrepares env r s with
    | none => exact absurd hp (uploadPrepares_ne_none env r s h)
    | some x =>
      cases x with
      | error e => simp [handleUpload, hp]
      | ok entry =>
        simp only [handleUpload, hp]
        split <;> simp
  · rfl

/-- Claim C9 witness: a two-share report is handled without a panic, the
empty-share report panics. -/
theorem c9_witness :
    handleUpload env0 v0 (.failure 500 none) (mkReport 1 1) (leaderNew p0 0) ≠ none ∧
    handleUpload env0 v0 (.failure 500 none) shortReport (leaderNew p0 0) = none :=
  ⟨c9_upload_share_indexing.1 env0 v0 (.failure 500 none) (mkReport 1 1)
      (leaderNew p0 0) (by decide),
    c9_upload_share_indexing.2⟩

/-! Claim C7: upload returns success even when the triggered aggregate
round fails. -/

/-- Claim C7: for every report that passes validation, decryption and
preparation, handle_upload succeeds; when the queue length after the
insertion reaches the trigger threshold of 10 the aggregate round is
invoked (an aggregate request appears in the trace), and this holds for
every Helper behavior: errors of the round never change the success
returned to the uploading client. -/
theorem c7_upload_swallows_round_errors (env : UploadEnv) (v : VdafModel)
    (hresp : HelperAggResponse) (r : Report) (s : Leader)
    (entry : StoredInputShare)
    (h : uploadPrepares env r s = some (.ok entry)) :
    ∃ s' tr, handleUpload env v hresp r s = some (.ok (), s', tr) ∧
      (10 ≤ (sortQueue (s.unaggregated_inputs ++ [entry])).length →
        tr = [aggregateRequest
          { s with unaggregated_inputs := sortQueue (s.unaggregated_inputs ++ [entry]) }]) := by
  simp only [handleUpload, h]
  split
  · exact ⟨_, _, rfl, fun _ => rfl⟩
  · next hlt =>
    exact ⟨_, _, rfl, fun hc => absurd hc hlt⟩

/-- The pending entry produced for the report with time 5 and nonce 1
under the all-success environment. -/
def entry0 : StoredInputShare :=
  { timestamp := { time := 5, nonce := 1 }
    leader_state := 0
    leader_verifier_message := 0
    encrypted_helper_share := { config_id := 0, encapsulated_context := [], payload := [] }
    extensions := [] }

/-- Claim C7 witness: with nine pending entries, a tenth successful upload
triggers the aggregate round; the Helper answers HTTP 500, yet
handle_upload returns success. -/
theorem c7_witness :
    uploadPrepares env0 (mkReport 5 1) s9 = some (.ok entry0) ∧
    (∃ s' tr, handleUpload env0 v0 (.failure 500 none) (mkReport 5 1) s9 =
        some (.ok (), s', tr) ∧
      (10 ≤ (sortQueue (s9.unaggregated_inputs ++ [entry0])).length →
        tr = [aggregateRequest
          { s9 with unaggregated_inputs := sortQueue (s9.unaggregated_inputs ++ [entry0]) }])) :=
  ⟨rfl, c7_upload_swallows_round_errors env0 v0 (.failure 500 none) (mkReport 5 1) s9
    entry0 rfl⟩

/-! Claim C5: ordering of the sub-requests sent to the Helper. -/

/-- Claim C5 counterexample: uploading the report with time 5, nonce 1
twice (nine distinct uploads, then a duplicate) is accepted by
handle_upload both times; the tenth upload triggers an AggregateRound
whose sub-request sequence carries the timestamp (5, 1) twice in adjacent
positions, so the sequence sent to the Helper is sorted but not strictly
increasing in (time, nonce). -/
theorem c5_counterexample :
    uploadTrace (mkReport 5 1) s9 ≠ [] ∧
    ∀ req ∈ uploadTrace (mkReport 5 1) s9,
      strictlyIncreasingTs (req.sub_requests.map (·.timestamp)) = false := by
  decide

/-! Claim C2: effect of a permuted helper response on the accumulator
store. -/

/-- Pending entry with the given time, nonce 0, used by the C2
counterexample. -/
def c2Entry (t : Nat) : StoredInputShare :=
  { timestamp := { time := t, nonce := 0 }
    leader_state := 0
    leader_verifier_message := 0
    encrypted_helper_share := { config_id := 0, encapsulated_context := [], payload := [] }
    extensions := [] }

/-- Leader state with three sorted pending entries and an empty
accumulator store. -/
def c2State : Leader :=
  { leaderNew p0 0 with unaggregated_inputs := [c2Entry 1, c2Entry 2, c2Entry 3] }

/-- Helper response whose sub-responses are the non-identity permutation
(1, 3, 2) of the sorted sub-request timestamps. -/
def c2Resp : VerifyResponse :=
  { helper_state := []
    sub_responses :=
      [{ timestamp := { time := 1, nonce := 0 }, verification_message := [0] },
       { timestamp := { time := 3, nonce := 0 }, verification_message := [0] },
       { timestamp := { time := 2, nonce := 0 }, verification_message := [0] }] }

/-- Claim C2 counterexample: the helper sub-responses are a non-identity
permutation of the sorted sub-request timestamps, the round does return
the aggregateProtocol error, but the AccumulatorStore is NOT equal to its
state before the fold step: the first pair is aligned and is folded (a
fresh accumulator is created) before the mismatch at the second pair
aborts the round. -/
theorem c2_counterexample :
    ((c2Resp.sub_responses.map (·.timestamp)).Perm
        (c2State.unaggregated_inputs.map (·.timestamp)) ∧
      c2Resp.sub_responses.map (·.timestamp) ≠
        c2State.unaggregated_inputs.map (·.timestamp) ∧
      strictlyIncreasingTs (c2State.unaggregated_inputs.map (·.timestamp)) = true) ∧
    (sendAggregateRequest v0 (.ok c2Resp) c2State).1 = .error .aggregateProtocol ∧
    (sendAggregateRequest v0 (.ok c2Resp) c2State).2.accumulators ≠
      c2State.accumulators := by
  exact ⟨⟨by decide, by decide, by decide⟩, rfl, by decide⟩

/-- Helper lemma: the reconciliation loop processes pairs sequentially:
if a prefix completes without a fatal error, folding the whole list
continues from the store the prefix produced. -/
theorem foldPairs_append (v : VdafModel) (mbd : Nat)
    (pre rest : List (StoredInputShare × SubResponse)) (m m' : AccMap)
    (h : foldPairs v mbd pre m = (m', none)) :
    foldPairs v mbd (pre ++ rest) m = foldPairs v mbd rest m' := by
  induction pre generalizing m with
  | nil =>
    simp only [foldPairs] at h
    cases h
    rw [List.nil_append]
  | cons p pre ih =>
    obtain ⟨li, hr⟩ := p
    rw [List.cons_append]
    by_cases hmis : li.timestamp ≠ hr.timestamp
    · simp [foldPairs, if_pos hmis] at h
    · cases hd : v.decodeMsg hr.verification_message with
      | none => simp [foldPairs, if_neg hmis, hd] at h
      | some hmsg =>
        cases hp : v.preproc hmsg li.leader_verifier_message with
        | none => simp [foldPairs, if_neg hmis, hd, hp] at h
        | some comb =>
          cases hf : v.finish li.leader_state comb with
          | none =>
            simp only [foldPairs, if_neg hmis, hd, hp, hf] at h ⊢
            exact ih m h
          | some out =>
            cases hg : accGet m (intervalStart mbd li.timestamp.time) with
            | some acc =>
              cases ha : v.accumulate acc.accumulated out with
              | none => simp [foldPairs, if_neg hmis, hd, hp, hf, hg, ha] at h
              | some sh =>
                simp only [foldPairs, if_neg hmis, hd, hp, hf, hg, ha] at h ⊢
                exact ih _ h
            | none =>
              cases ha : v.aggregateOne out with
              | none => simp [foldPairs, if_neg hmis, hd, hp, hf, hg, ha] at h
              | some sh =>
                simp only [foldPairs, if_neg hmis, hd, hp, hf, hg, ha] at h ⊢
                exact ih _ h

/-- Claim C2 (amended): when the helper sub-responses have the right
length but disagree with the sorted sub-request timestamps at some
position, and every aligned pair before the first mismatch is processed
without a fatal error, the round returns the aggregateProtocol error, the
PendingQueue is drained, the helper_state is unchanged, and the
AccumulatorStore equals the result of folding exactly the aligned pairs
that precede the first mismatch — so it is unchanged only when the
mismatch occurs at the first position. -/
theorem c2_mismatch_folds_aligned_pairs (v : VdafModel) (s : Leader)
    (resp : VerifyResponse) (pre rest : List (StoredInputShare × SubResponse))
    (a : StoredInputShare) (b : SubResponse) (m : AccMap)
    (hlen : s.unaggregated_inputs.length = resp.sub_responses.length)
    (hzip : s.unaggregated_inputs.zip resp.sub_responses = pre ++ (a, b) :: rest)
    (hpre : foldPairs v s.parameters.min_batch_duration pre s.accumulators = (m, none))
    (hmis : a.timestamp ≠ b.timestamp) :
    sendAggregateRequest v (.ok resp) s =
      (.error .aggregateProtocol,
        { s with unaggregated_inputs := [], accumulators := m }) := by
  simp only [sendAggregateRequest]
  rw [if_neg (by simp [hlen]), hzip, foldPairs_append v _ pre ((a, b) :: rest) _ _ hpre]
  simp only [foldPairs, if_pos hmis]

/-- Claim C2 witness: with the mismatch at the first position (empty
aligned prefix), the round aborts with aggregateProtocol and the
accumulator store is exactly unchanged. -/
theorem c2_witness :
    (c2State.unaggregated_inputs.zip
        [⟨{ time := 9, nonce := 9 }, [0]⟩, ⟨{ time := 2, nonce := 0 }, [0]⟩,
          ⟨{ time := 3, nonce := 0 }, [0]⟩] =
      [] ++ (c2Entry 1, (⟨{ time := 9, nonce := 9 }, [0]⟩ : SubResponse)) ::
        [(c2Entry 2, ⟨{ time := 2, nonce := 0 }, [0]⟩),
         (c2Entry 3, ⟨{ time := 3, nonce := 0 }, [0]⟩)]) ∧
    sendAggregateRequest v0
        (.ok { helper_state := []
               sub_responses :=
                 [⟨{ time := 9, nonce := 9 }, [0]⟩, ⟨{ time := 2, nonce := 0 }, [0]⟩,
                   ⟨{ time := 3, nonce := 0 }, [0]⟩] }) c2State =
      (.error .aggregateProtocol,
        { c2State with unaggregated_inputs := [], accumulators := c2State.accumulators }) :=
  ⟨rfl,
    c2_mismatch_folds_aligned_pairs v0 c2State _ [] _ (c2Entry 1)
      ⟨{ time := 9, nonce := 9 }, [0]⟩ c2State.accumulators rfl rfl rfl (by decide)⟩

/-! Association-list lemmas for the accumulator store. -/

/-- Lookup after an in-place update: the updated key reads back the new
value when present, every other key is unchanged. -/
theorem accGet_accUpdate (m : AccMap) (k : Nat) (b : Accumulator) (k' : Nat) :
    accGet (accUpdate m k b) k' =
      if k' = k then (accGet m k).map fun _ => b else accGet m k' := by
  induction m with
  | nil => simp [accUpdate, accGet]
  | cons kv rest ih =>
    obtain ⟨k0, a0⟩ := kv
    by_cases h0 : k0 = k <;> by_cases h1 : k0 = k'
    · subst h0; subst h1
      simp [accUpdate, accGet]
    · subst h0
      simp [accUpdate, accGet, h1, Ne.symm h1, ih]
    · subst h1
      simp [accUpdate, accGet, h0, Ne.symm h0]
    · simp [accUpdate, accGet, h0, h1, ih]

/-- Membership in an updated store: an entry is the new value or was
already present. -/
theorem mem_accUpdate (m : AccMap) (k : Nat) (b : Accumulator)
    (kv : Nat × Accumulator) (h : kv ∈ accUpdate m k b) : kv.2 = b ∨ kv ∈ m := by
  induction m with
  | nil => simp [accUpdate] at h
  | cons kv0 rest ih =>
    obtain ⟨k0, a0⟩ := kv0
    by_cases h0 : k0 = k
    · rw [accUpdate, if_pos h0] at h
      rcases List.mem_cons.mp h with h | h
      · exact .inl (by rw [h])
      · rcases ih h with h | h
        · exact .inl h
        · exact .inr (List.mem_cons_of_mem _ h)
    · rw [accUpdate, if_neg h0] at h
      rcases List.mem_cons.mp h with h | h
      · exact .inr (h ▸ List.mem_cons_self _ _)
      · rcases ih h with h | h
        · exact .inl h
        · exact .inr (List.mem_cons_of_mem _ h)

/-- A successful lookup exhibits a member of the store. -/
theorem accGet_mem (m : AccMap) (k : Nat) (a : Accumulator)
    (h : accGet m k = some a) : (k, a) ∈ m := by
  induction m with
  | nil => simp [accGet] at h
  | cons kv rest ih =>
    obtain ⟨k0, a0⟩ := kv
    by_cases h0 : k0 = k
    · subst h0
      rw [accGet, if_pos rfl] at h
      cases h
      exact List.mem_cons_self _ _
    · rw [accGet, if_neg h0] at h
      exact List.mem_cons_of_mem _ (ih h)

/-! Lemmas about the budget-charging loop of handle_collect. -/

/-- If the charging loop completes with an empty snapshot list, it never
pushed a snapshot, so it never charged a bucket and the running total is
unchanged. -/
theorem chargeLoop_empty_shares (maxL : Nat) (keys : List Nat) (m m' : AccMap)
    (shares : List Nat) (total total' : Nat)
    (h : chargeLoop maxL keys m shares total = (m', some ([], total'))) :
    shares = [] ∧ total' = total := by
  induction keys generalizing m shares total with
  | nil =>
    rw [chargeLoop] at h
    cases h
    exact ⟨rfl, rfl⟩
  | cons k rest ih =>
    cases hg : accGet m k with
    | none =>
      simp only [chargeLoop, hg] at h
      exact ih _ _ _ h
    | some acc =>
      cases hc : chargeBucket maxL acc with
      | none =>
        simp only [chargeLoop, hg, hc] at h
        simp at h
      | some acc' =>
        simp only [chargeLoop, hg, hc] at h
        have := (ih _ _ _ h).1
        simp at this

/-- Characterization of a completed charging loop over pairwise-distinct
keys: the total gains the contributions of every present bucket, every
present bucket in the listed keys has its budget incremented by exactly
one, absent and unlisted keys are unchanged. -/
theorem chargeLoop_some_char (maxL : Nat) (keys : List Nat) (m m' : AccMap)
    (shares0 shares : List Nat) (total0 total : Nat)
    (hnd : keys.Nodup)
    (h : chargeLoop maxL keys m shares0 total0 = (m', some (shares, total))) :
    total = total0 + (keys.map fun k =>
        match accGet m k with
        | some a => a.contributions
        | none => 0).sum ∧
    (∀ k ∈ keys, accGet m' k =
      (accGet m k).map fun a => { a with privacy_budget := a.privacy_budget + 1 }) ∧
    (∀ k, k ∉ keys → accGet m' k = accGet m k) := by
  induction keys generalizing m shares0 total0 with
  | nil =>
    rw [chargeLoop] at h
    cases h
    exact ⟨by simp, by simp, fun k _ => rfl⟩
  | cons k rest ih =>
    have hk_rest : k ∉ rest := (List.nodup_cons.mp hnd).1
    have hnd' : rest.Nodup := (List.nodup_cons.mp hnd).2
    cases hg : accGet m k with
    | none =>
      simp only [chargeLoop, hg] at h
      obtain ⟨ht, hin, hout⟩ := ih _ _ _ hnd' h
      refine ⟨by simpa [hg] using ht, ?_, ?_⟩
      · intro k' hk'
        rcases List.mem_cons.mp hk' with rfl | hk'
        · rw [hout k' hk_rest, hg]; rfl
        · exact hin k' hk'
      · intro k' hk'
        exact hout k' fun hc => hk' (List.mem_cons_of_mem _ hc)
    | some acc =>
      cases hc : chargeBucket maxL acc with
      | none =>
        simp only [chargeLoop, hg, hc] at h
        simp at h
      | some acc' =>
        simp only [chargeLoop, hg, hc] at h
        have hacc' : acc' = { acc with privacy_budget := acc.privacy_budget + 1 } := by
          rw [chargeBucket] at hc
          split at hc
          · cases hc
          · cases hc; rfl
        obtain ⟨ht, hin, hout⟩ := ih _ _ _ hnd' h
        have hsame : ∀ k' ∈ rest, accGet (accUpdate m k acc') k' = accGet m k' := by
          intro k' hk'
          rw [accGet_accUpdate, if_neg]
          intro he
          exact hk_rest (he ▸ hk')
        refine ⟨?_, ?_, ?_⟩
        · rw [ht]
          have hmapeq : (rest.map fun j =>
              match accGet (accUpdate m k acc') j with
              | some a => a.contributions
              | none => 0) = rest.map fun j =>
              match accGet m j with
              | some a => a.contributions
              | none => 0 := by
            apply List.map_congr_left
            intro k' hk'
            rw [hsame k' hk']
          rw [hmapeq]
          simp [hg]
          omega
        · intro k' hk'
          rcases List.mem_cons.mp hk' with rfl | hk'
          · rw [hout k' hk_rest, accGet_accUpdate, if_pos rfl, hg, hacc']
            rfl
          · rw [hin k' hk', hsame k' hk']
        · intro k' hk'
          rw [hout k' fun hc => hk' (List.mem_cons_of_mem _ hc), accGet_accUpdate, if_neg]
          intro he
          exact hk' (he ▸ List.mem_cons_self k rest)

/-- A valid batch interval forces a positive min_batch_duration: a zero
duration quantum would make the duration both zero and positive. -/
theorem validateBatchInterval_mbd_pos (p : Parameters) (i : Interval)
    (h : validateBatchInterval p i = true) : 0 < p.min_batch_duration := by
  unfold validateBatchInterval at h
  simp only [Bool.and_eq_true, decide_eq_true_eq, beq_iff_eq] at h
  rcases Nat.eq_zero_or_pos p.min_batch_duration with h0 | h0
  · rw [h0, Nat.mod_zero] at h
    omega
  · exact h0

/-- The bucket keys of a collect interval are pairwise distinct when the
duration quantum is positive. -/
theorem collectKeys_nodup (p : Parameters) (i : Interval)
    (hd : 0 < p.min_batch_duration) : (collectKeys p i).Nodup := by
  unfold collectKeys
  refine List.Nodup.map ?_ (List.nodup_range _)
  intro a b hab
  exact Nat.eq_of_mul_eq_mul_right hd (Nat.add_left_cancel hab)

/-! Claim C10: safety of the split_off(1) merge step of handle_collect. -/

/-- Helper lemma: a collect on a Leader whose min_batch_size is at least
one never reaches split_off with an empty snapshot list, hence never
panics. -/
theorem handleCollect_ne_none (env : CollectEnv) (req : CollectRequest)
    (s : Leader) (h : 1 ≤ s.parameters.min_batch_size) :
    handleCollect env req s ≠ none := by
  unfold handleCollect
  split
  · simp
  · cases henv : env.helperResp with
    | failure status document => cases document <;> simp [henv]
    | badBody => simp [henv]
    | ok helper_share =>
      cases hcl : chargeLoop s.parameters.max_batch_lifetime
          (collectKeys s.parameters req.batch_interval) s.accumulators [] 0 with
      | mk m o =>
        cases o with
        | none => simp [henv, hcl]
        | some pr =>
          obtain ⟨shares, total⟩ := pr
          by_cases hlow : total < s.parameters.min_batch_size
          · simp [henv, hcl, if_pos hlow]
          · cases shares with
            | nil =>
              exfalso
              have := (chargeLoop_empty_shares _ _ _ _ _ _ _ hcl).2
              omega
            | cons a rest =>
              cases hm : mergeAll env a rest with
              | error e => simp [henv, hcl, if_neg hlow, hm]
              | ok merged =>
                cases hsl : env.sealShare (encodeOutputShare merged total) with
                | none => simp [henv, hcl, if_neg hlow, hsl, hm]
                | some pe =>
                  obtain ⟨payload, encapped⟩ := pe
                  simp [henv, hcl, if_neg hlow, hm, hsl]

/-- Task configuration identical to p0 except that min_batch_size is 0. -/
def pZero : Parameters :=
  { task_id := 0
    min_batch_duration := 100
    min_batch_size := 0
    max_batch_lifetime := 1
    collector_config_id := 0 }

/-- Claim C10: the merge step of handle_collect calls split_off(1) on the
collected snapshot list.  First conjunct: a charging loop that collects
no snapshot leaves the total at 0, so under min_batch_size at least 1 the
insufficientBatchSize abort fires before the merge.  Second conjunct: for
every state with min_batch_size at least 1, handle_collect never panics.
Third conjunct: with min_batch_size = 0 and an aligned interval covering
no present bucket, handle_collect reaches split_off(1) on an empty list
and panics. -/
theorem c10_collect_split_off_safety :
    (∀ (maxL : Nat) (keys : List Nat) (m m' : AccMap) (total : Nat),
      chargeLoop maxL keys m [] 0 = (m', some ([], total)) → total = 0) ∧
    (∀ (env : CollectEnv) (req : CollectRequest) (s : Leader),
      1 ≤ s.parameters.min_batch_size → handleCollect env req s ≠ none) ∧
    handleCollect cenvOk
      { task_id := 0, batch_interval := { start := 1000, duration := 100 } }
      (leaderNew pZero 0) = none :=
  ⟨fun maxL keys m m' total h => (chargeLoop_empty_shares maxL keys m m' [] 0 total h).2,
    handleCollect_ne_none, rfl⟩

/-- Claim C10 witness: with min_batch_size = 2 the same collect does not
panic; with min_batch_size = 0 it panics. -/
theorem c10_witness :
    handleCollect cenvOk
      { task_id := 0, batch_interval := { start := 1000, duration := 100 } }
      (leaderNew p0 0) ≠ none ∧
    handleCollect cenvOk
      { task_id := 0, batch_interval := { start := 1000, duration := 100 } }
      (leaderNew pZero 0) = none :=
  ⟨c10_collect_split_off_safety.2.1 cenvOk _ _ (by decide),
    c10_collect_split_off_safety.2.2⟩

/-! Claim C4: collects below min_batch_size keep the budget charges. -/

/-- Claim C4: for a collect request over a valid interval, answered by the
Helper, whose charging loop completes (no exhausted bucket) with a total
strictly below min_batch_size, handle_collect returns the
insufficientBatchSize error carrying exactly that total, the total is the
sum of the contributions of the present buckets, and the budget
increments already applied are retained: every present bucket of the
interval ends with privacy_budget one greater than before the collect,
and every other bucket is unchanged. -/
theorem c4_insufficient_batch_keeps_charges (env : CollectEnv)
    (req : CollectRequest) (s : Leader) (hs : EncryptedOutputShare)
    (m' : AccMap) (shares : List Nat) (total : Nat)
    (hval : validateBatchInterval s.parameters req.batch_interval = true)
    (hresp : env.helperResp = .ok hs)
    (hloop : chargeLoop s.parameters.max_batch_lifetime
        (collectKeys s.parameters req.batch_interval) s.accumulators [] 0 =
      (m', some (shares, total)))
    (hlow : total < s.parameters.min_batch_size) :
    handleCollect env req s =
      some (.error (.insufficientBatchSize total), { s with accumulators := m' },
        [{ task_id := req.task_id
           batch_interval := req.batch_interval
           helper_state := s.helper_state }]) ∧
    total = ((collectKeys s.parameters req.batch_interval).map fun k =>
        match accGet s.accumulators k with
        | some a => a.contributions
        | none => 0).sum ∧
    (∀ k ∈ collectKeys s.parameters req.batch_interval,
      accGet m' k = (accGet s.accumulators k).map fun a =>
        { a with privacy_budget := a.privacy_budget + 1 }) ∧
    (∀ k, k ∉ collectKeys s.parameters req.batch_interval →
      accGet m' k = accGet s.accumulators k) := by
  have hnd := collectKeys_nodup s.parameters req.batch_interval
    (validateBatchInterval_mbd_pos _ _ hval)
  obtain ⟨ht, hin, hout⟩ := chargeLoop_some_char _ _ _ _ _ _ _ _ hnd hloop
  refine ⟨?_, by simpa using ht, hin, hout⟩
  unfold handleCollect
  rw [if_neg (by simp [hval])]
  simp only [hresp, hloop, if_pos hlow]

/-- Leader state holding one accumulator for bucket 1000 with 1
contribution and budget 0, under configuration p0. -/
def s4 : Leader :=
  { leaderNew p0 0 with
    accumulators := [(1000, { accumulated := 7, contributions := 1, privacy_budget := 0 })] }

/-- Claim C4 witness: a collect over bucket 1000 finds a total of 1, below
min_batch_size = 2, returns insufficientBatchSize(1) and leaves the
bucket budget incremented to 1. -/
theorem c4_witness :
    handleCollect cenvOk
      { task_id := 0, batch_interval := { start := 1000, duration := 100 } } s4 =
      some (.error (.insufficientBatchSize 1),
        { s4 with
          accumulators := [(1000, { accumulated := 7, contributions := 1, privacy_budget := 1 })] },
        [{ task_id := 0
           batch_interval := { start := 1000, duration := 100 }
           helper_state := [] }]) :=
  (c4_insufficient_batch_keeps_charges cenvOk
    { task_id := 0, batch_interval := { start := 1000, duration := 100 } } s4
    { collector_hpke_config_id := 0, encapsulated_context := [], payload := [] }
    [(1000, { accumulated := 7, contributions := 1, privacy_budget := 1 })] [7] 1
    (by decide) rfl (by decide) (by decide)).1

/-! Order lemmas for the timestamp ordering. -/

/-- Totality of the lexicographic timestamp order. -/
theorem tsLeb_total (a b : Timestamp) : tsLeb a b = true ∨ tsLeb b a = true := by
  simp only [tsLeb, Bool.or_eq_true, Bool.and_eq_true, decide_eq_true_eq]
  omega

/-- Transitivity of the lexicographic timestamp order. -/
theorem tsLeb_trans (a b c : Timestamp) (h1 : tsLeb a b = true)
    (h2 : tsLeb b c = true) : tsLeb a c = true := by
  simp only [tsLeb, Bool.or_eq_true, Bool.and_eq_true, decide_eq_true_eq] at h1 h2 ⊢
  omega

/-- Distinct timestamps related by the weak order are strictly related. -/
theorem tsLeb_ne_lt (a b : Timestamp) (h1 : tsLeb a b = true) (h2 : a ≠ b) :
    tsLtb a b = true := by
  obtain ⟨at1, an1⟩ := a
  obtain ⟨bt1, bn1⟩ := b
  have h2a : ¬(at1 = bt1 ∧ an1 = bn1) := fun ⟨hx, hy⟩ => h2 (by rw [hx, hy])
  simp only [tsLeb, tsLtb, Bool.or_eq_true, Bool.and_eq_true, decide_eq_true_eq] at h1 ⊢
  omega

/-- The queue is sorted by timestamp (weakly, duplicates allowed). -/
def queueSorted (q : List StoredInputShare) : Prop :=
  List.Pairwise (fun a b => tsLeb a.timestamp b.timestamp = true) q

/-- Membership after a sorted insertion. -/
theorem mem_insertSorted (e : StoredInputShare) (l : List StoredInputShare)
    (x : StoredInputShare) : x ∈ insertSorted e l ↔ x = e ∨ x ∈ l := by
  induction l with
  | nil => simp [insertSorted]
  | cons a rest ih =>
    unfold insertSorted
    split
    · simp [List.mem_cons]
    · simp [List.mem_cons, ih]
      tauto

/-- Sorted insertion preserves sortedness. -/
theorem queueSorted_insertSorted (e : StoredInputShare)
    (l : List StoredInputShare) (h : queueSorted l) :
    queueSorted (insertSorted e l) := by
  induction l with
  | nil => simp [insertSorted, queueSorted]
  | cons a rest ih =>
    rw [queueSorted, List.pairwise_cons] at h
    obtain ⟨ha, hrest⟩ := h
    unfold insertSorted
    split
    · next hle =>
      rw [queueSorted, List.pairwise_cons]
      refine ⟨?_, List.pairwise_cons.mpr ⟨ha, hrest⟩⟩
      intro x hx
      rcases List.mem_cons.mp hx with rfl | hx
      · exact hle
      · exact tsLeb_trans _ _ _ hle (ha x hx)
    · next hnle =>
      have hle : tsLeb a.timestamp e.timestamp = true := by
        rcases tsLeb_total e.timestamp a.timestamp with hh | hh
        · exact absurd hh hnle
        · exact hh
      rw [queueSorted, List.pairwise_cons]
      refine ⟨?_, ih hrest⟩
      intro x hx
      rcases (mem_insertSorted e rest x).mp hx with rfl | hx
      · exact hle
      · exact ha x hx

/-- The re-sorted queue is sorted. -/
theorem queueSorted_sortQueue (q : List StoredInputShare) :
    queueSorted (sortQueue q) := by
  induction q with
  | nil => simp [sortQueue, queueSorted]
  | cons a rest ih => exact queueSorted_insertSorted a _ ih

/-! State invariant of the Leader, preserved by every handler. -/

/-- Invariant: every accumulator respects the privacy budget bound and the
pending queue is sorted by timestamp. -/
def LeaderInv (s : Leader) : Prop :=
  (∀ kv ∈ s.accumulators, kv.2.privacy_budget ≤ s.parameters.max_batch_lifetime) ∧
  queueSorted s.unaggregated_inputs

/-- The reconciliation fold never decreases no budget and never creates a
budget above the bound: updates keep the budget, fresh accumulators start
at zero. -/
theorem foldPairs_budget (v : VdafModel) (mbd maxL : Nat)
    (pairs : List (StoredInputShare × SubResponse)) (m m' : AccMap)
    (e : Option LeaderError)
    (hm : ∀ kv ∈ m, kv.2.privacy_budget ≤ maxL)
    (h : foldPairs v mbd pairs m = (m', e)) :
    ∀ kv ∈ m', kv.2.privacy_budget ≤ maxL := by
  induction pairs generalizing m with
  | nil =>
    rw [foldPairs] at h
    simp only [Prod.mk.injEq] at h
    obtain ⟨rfl, rfl⟩ := h
    exact hm
  | cons p rest ih =>
    obtain ⟨li, hr⟩ := p
    by_cases hmis : li.timestamp ≠ hr.timestamp
    · simp only [foldPairs, if_pos hmis, Prod.mk.injEq] at h
      obtain ⟨rfl, rfl⟩ := h
      exact hm
    · cases hd : v.decodeMsg hr.verification_message with
      | none =>
        simp only [foldPairs, if_neg hmis, hd, Prod.mk.injEq] at h
        obtain ⟨rfl, rfl⟩ := h
        exact hm
      | some hmsg =>
        cases hp : v.preproc hmsg li.leader_verifier_message with
        | none =>
          simp only [foldPairs, if_neg hmis, hd, hp, Prod.mk.injEq] at h
          obtain ⟨rfl, rfl⟩ := h
          exact hm
        | some comb =>
          cases hf : v.finish li.leader_state comb with
          | none =>
            simp only [foldPairs, if_neg hmis, hd, hp, hf] at h
            exact ih _ hm h
          | some out =>
            cases hg : accGet m (intervalStart mbd li.timestamp.time) with
            | some acc =>
              cases ha : v.accumulate acc.accumulated out with
              | none =>
                simp only [foldPairs, if_neg hmis, hd, hp, hf, hg, ha,
                  Prod.mk.injEq] at h
                obtain ⟨rfl, rfl⟩ := h
                exact hm
              | some sh =>
                simp only [foldPairs, if_neg hmis, hd, hp, hf, hg, ha] at h
                refine ih _ ?_ h
                intro kv hkv
                rcases mem_accUpdate _ _ _ _ hkv with hkv | hkv
                · rw [hkv]
                  exact hm _ (accGet_mem _ _ _ hg)
                · exact hm _ hkv
            | none =>
              cases ha : v.aggregateOne out with
              | none =>
                simp only [foldPairs, if_neg hmis, hd, hp, hf, hg, ha,
                  Prod.mk.injEq] at h
                obtain ⟨rfl, rfl⟩ := h
                exact hm
              | some sh =>
                simp only [foldPairs, if_neg hmis, hd, hp, hf, hg, ha] at h
                refine ih _ ?_ h
                intro kv hkv
                rcases List.mem_append.mp hkv with hkv | hkv
                · exact hm _ hkv
                · simp only [List.mem_singleton] at hkv
                  rw [hkv]
                  exact Nat.zero_le _

/-- The charging loop preserves the budget bound: a successful charge had
a budget strictly below the bound. -/
theorem chargeLoop_budget (maxL : Nat) (keys : List Nat) (m m' : AccMap)
    (shares : List Nat) (total : Nat) (o : Option (List Nat × Nat))
    (hm : ∀ kv ∈ m, kv.2.privacy_budget ≤ maxL)
    (h : chargeLoop maxL keys m shares total = (m', o)) :
    ∀ kv ∈ m', kv.2.privacy_budget ≤ maxL := by
  induction keys generalizing m shares total with
  | nil =>
    rw [chargeLoop] at h
    simp only [Prod.mk.injEq] at h
    obtain ⟨rfl, rfl⟩ := h
    exact hm
  | cons k rest ih =>
    cases hg : accGet m k with
    | none =>
      simp only [chargeLoop, hg] at h
      exact ih _ _ _ hm h
    | some acc =>
      cases hc : chargeBucket maxL acc with
      | none =>
        simp only [chargeLoop, hg, hc, Prod.mk.injEq] at h
        obtain ⟨rfl, rfl⟩ := h
        exact hm
      | some acc' =>
        simp only [chargeLoop, hg, hc] at h
        refine ih _ _ _ ?_ h
        intro kv hkv
        rcases mem_accUpdate _ _ _ _ hkv with hkv | hkv
        · rw [hkv]
          have hneq : acc.privacy_budget ≠ maxL := by
            rw [chargeBucket] at hc
            split at hc
            · cases hc
            · next hne => exact hne
          have hle : acc.privacy_budget ≤ maxL := hm _ (accGet_mem _ _ _ hg)
          have hacc' : acc'.privacy_budget = acc.privacy_budget + 1 := by
            rw [chargeBucket] at hc
            split at hc
            · cases hc
            · cases hc; rfl
          simp only [hacc']
          omega
        · exact hm _ hkv

/-- The aggregate round preserves the invariant and the parameters. -/
theorem sendAggregateRequest_inv (v : VdafModel) (hresp : HelperAggResponse)
    (s : Leader) (hs : LeaderInv s) :
    LeaderInv (sendAggregateRequest v hresp s).2 ∧
    (sendAggregateRequest v hresp s).2.parameters = s.parameters := by
  obtain ⟨hb, hq⟩ := hs
  cases hresp with
  | failure status doc => cases doc <;> exact ⟨⟨hb, hq⟩, rfl⟩
  | badBody => exact ⟨⟨hb, List.Pairwise.nil⟩, rfl⟩
  | ok resp =>
    simp only [sendAggregateRequest]
    split
    · exact ⟨⟨hb, List.Pairwise.nil⟩, rfl⟩
    · cases hfp : foldPairs v s.parameters.min_batch_duration
          (s.unaggregated_inputs.zip resp.sub_responses) s.accumulators with
      | mk m e =>
        have hb' := foldPairs_budget _ _ _ _ _ _ _ hb hfp
        cases e with
        | some err => exact ⟨⟨hb', List.Pairwise.nil⟩, rfl⟩
        | none => exact ⟨⟨hb', List.Pairwise.nil⟩, rfl⟩

/-- handle_upload preserves the invariant and the parameters. -/
theorem handleUpload_inv (env : UploadEnv) (v : VdafModel)
    (hresp : HelperAggResponse) (r : Report) {s s' : Leader}
    {res : Except LeaderError Unit} {tr : List VerifyStartRequest}
    (h : handleUpload env v hresp r s = some (res, s', tr)) (hs : LeaderInv s) :
    LeaderInv s' ∧ s'.parameters = s.parameters := by
  unfold handleUpload at h
  cases hp : uploadPrepares env r s with
  | none => rw [hp] at h; cases h
  | some x =>
    rw [hp] at h
    cases x with
    | error e =>
      cases h
      exact ⟨hs, rfl⟩
    | ok entry =>
      dsimp only at h
      split at h
      · cases h
        have hinv1 : LeaderInv { s with
            unaggregated_inputs := sortQueue (s.unaggregated_inputs ++ [entry]) } :=
          ⟨hs.1, queueSorted_sortQueue _⟩
        exact (sendAggregateRequest_inv v hresp _ hinv1)
      · cases h
        exact ⟨⟨hs.1, queueSorted_sortQueue _⟩, rfl⟩

/-- handle_collect preserves the invariant and the parameters. -/
theorem handleCollect_inv (env : CollectEnv) (req : CollectRequest)
    {s s' : Leader} {res : Except LeaderError CollectResponse}
    {tr : List OutputShareRequest}
    (h : handleCollect env req s = some (res, s', tr)) (hs : LeaderInv s) :
    LeaderInv s' ∧ s'.parameters = s.parameters := by
  unfold handleCollect at h
  split at h
  · cases h
    exact ⟨hs, rfl⟩
  · cases henv : env.helperResp with
    | failure status doc =>
      rw [henv] at h
      cases doc with
      | none => cases h; exact ⟨hs, rfl⟩
      | some doc => cases h; exact ⟨hs, rfl⟩
    | badBody =>
      rw [henv] at h
      cases h
      exact ⟨hs, rfl⟩
    | ok hshare =>
      rw [henv] at h
      cases hcl : chargeLoop s.parameters.max_batch_lifetime
          (collectKeys s.parameters req.batch_interval) s.accumulators [] 0 with
      | mk m o =>
        rw [hcl] at h
        have hb' := chargeLoop_budget _ _ _ _ _ _ _ hs.1 hcl
        cases o with
        | none =>
          cases h
          exact ⟨⟨hb', hs.2⟩, rfl⟩
        | some pr =>
          obtain ⟨shares, total⟩ := pr
          dsimp only at h
          split at h
          · cases h
            exact ⟨⟨hb', hs.2⟩, rfl⟩
          · cases shares with
            | nil => simp at h
            | cons a rest =>
              cases hmg : mergeAll env a rest with
              | error e =>
                simp only [hmg] at h
                cases h
                exact ⟨⟨hb', hs.2⟩, rfl⟩
              | ok merged =>
                simp only [hmg] at h
                cases hsl : env.sealShare (encodeOutputShare merged total) with
                | none =>
                  simp only [hsl] at h
                  cases h
                  exact ⟨⟨hb', hs.2⟩, rfl⟩
                | some pe =>
                  obtain ⟨payload, encapped⟩ := pe
                  simp only [hsl] at h
                  cases h
                  exact ⟨⟨hb', hs.2⟩, rfl⟩

/-- Every reachable Leader state satisfies the invariant. -/
theorem reachable_LeaderInv (s : Leader) (h : Reachable s) : LeaderInv s := by
  induction h with
  | init p cfg => exact ⟨by simp [leaderNew], List.Pairwise.nil⟩
  | upload env v hresp r res tr hr hstep ih =>
    exact (handleUpload_inv env v hresp r hstep ih).1
  | collect env req res tr hr hstep ih =>
    exact (handleCollect_inv env req hstep ih).1

/-! Claim C3: the charge operation and the budget invariant. -/

/-- Claim C3: charging a present bucket in handle_collect fails with
privacyBudgetExceeded iff its privacy_budget already equals
max_batch_lifetime, and otherwise increments the budget by exactly one;
consequently, in every reachable Leader state every bucket of the
accumulator store satisfies privacy_budget less than or equal to
max_batch_lifetime. -/
theorem c3_charge_spec_and_budget_invariant :
    (∀ (maxL : Nat) (acc : Accumulator),
      (chargeBucket maxL acc = none ↔ acc.privacy_budget = maxL) ∧
      ∀ acc', chargeBucket maxL acc = some acc' →
        acc'.privacy_budget = acc.privacy_budget + 1) ∧
    (∀ s : Leader, Reachable s →
      ∀ kv ∈ s.accumulators,
        kv.2.privacy_budget ≤ s.parameters.max_batch_lifetime) := by
  constructor
  · intro maxL acc
    constructor
    · by_cases heq : acc.privacy_budget = maxL <;> simp [chargeBucket, heq]
    · intro acc' hc
      rw [chargeBucket] at hc
      split at hc
      · cases hc
      · cases hc; rfl
  · intro s hr kv hkv
    exact (reachable_LeaderInv s hr).1 kv hkv

/-- Claim C3 witness: a bucket at the lifetime bound is refused, and the
freshly initialized Leader satisfies the budget invariant. -/
theorem c3_witness :
    (chargeBucket 1 { accumulated := 5, contributions := 2, privacy_budget := 1 } = none ↔
      ({ accumulated := 5, contributions := 2, privacy_budget := 1 } : Accumulator).privacy_budget = 1) ∧
    (∀ kv ∈ (leaderNew p0 0).accumulators,
      kv.2.privacy_budget ≤ (leaderNew p0 0).parameters.max_batch_lifetime) :=
  ⟨(c3_charge_spec_and_budget_invariant.1 1 _).1,
    c3_charge_spec_and_budget_invariant.2 (leaderNew p0 0) (Reachable.init p0 0)⟩

/-- Claim C5 (amended): in every reachable Leader state the sub-request
sequence built for an AggregateRound is sorted (non-decreasing) in
(time, nonce), and it is strictly increasing whenever the queued
timestamps are pairwise distinct; duplicate (time, nonce) pairs (from
reports uploaded more than once or colliding reports, which handle_upload
accepts) produce equal adjacent timestamps, so strictness can fail. -/
theorem c5_subrequests_sorted (s : Leader) (h : Reachable s) :
    List.Pairwise (fun a b => tsLeb a b = true)
      ((aggregateSubRequests s).map (·.timestamp)) ∧
    (((aggregateSubRequests s).map (·.timestamp)).Nodup →
      List.Pairwise (fun a b => tsLtb a b = true)
        ((aggregateSubRequests s).map (·.timestamp))) := by
  have hsorted := (reachable_LeaderInv s h).2
  have hmap : (aggregateSubRequests s).map (·.timestamp) =
      s.unaggregated_inputs.map (·.timestamp) := by
    simp [aggregateSubRequests]
  rw [hmap]
  constructor
  · rw [List.pairwise_map]
    exact hsorted
  · intro hnd
    have hle : List.Pairwise (fun a b => tsLeb a b = true)
        (s.unaggregated_inputs.map (·.timestamp)) := by
      rw [List.pairwise_map]
      exact hsorted
    exact (hle.and hnd).imp fun hh => tsLeb_ne_lt _ _ hh.1 hh.2

/-- Leader state after uploading one report, a concrete reachable state. -/
def s1u : Leader := stepUpload (mkReport 1 1) (leaderNew p0 0)

/-- Reachability of the one-upload state. -/
theorem s1u_reachable : Reachable s1u :=
  Reachable.upload env0 v0 (.failure 500 none) (mkReport 1 1) (.ok ()) []
    (Reachable.init p0 0) rfl

/-- Claim C5 witness: the one-upload state is reachable; its sub-request
timestamps are sorted and, when pairwise distinct, strictly increasing. -/
theorem c5_witness :
    List.Pairwise (fun a b => tsLeb a b = true)
      ((aggregateSubRequests s1u).map (·.timestamp)) ∧
    (((aggregateSubRequests s1u).map (·.timestamp)).Nodup →
      List.Pairwise (fun a b => tsLtb a b = true)
        ((aggregateSubRequests s1u).map (·.timestamp))) :=
  c5_subrequests_sorted s1u s1u_reachable

end Ppm
